import Mathlib

/-!
Verification of the medical-IT news aggregation pipeline (topical filter,
URL/title deduplication, chronological sort, delivery-state tracking and
run orchestration) against its natural-language specification.

The Python source is shallowly embedded: Python strings become Lean
`String`s (lists of characters), Python float arithmetic is modelled by
exact rationals `ℚ`, the sent-URL dictionary becomes an association list,
and side effects (webhook delivery, ledger file reads/writes) become
explicit parameters and returned state.
-/

-- Batteries marks the arithmetic of `Rat` irreducible; re-enable unfolding
-- so that concrete similarity scores can be evaluated by `decide`.
unseal Rat.add Rat.mul Rat.inv Rat.sub

namespace SlackNews

/-! ## String utilities (Python `in`, `lower`, `rstrip`, `split`) -/

/-- `beginsWith needle hay` is true when `needle` is an initial segment of
`hay`.  Building block for Python's substring test `needle in hay`. -/
def beginsWith : List Char → List Char → Bool
  | [], _ => true
  | _ :: _, [] => false
  | a :: as, b :: bs => a == b && beginsWith as bs

/-- Python's contiguous-substring containment `needle in hay`,
on character lists. -/
def containsSub (n : List Char) : List Char → Bool
  | [] => n.isEmpty
  | c :: t => beginsWith n (c :: t) || containsSub n t

/-- Python `needle in hay` on strings. -/
def strContains (hay needle : String) : Bool := containsSub needle.data hay.data

/-- Python `str.lower()`.  ASCII case folding; characters outside A–Z are
unchanged, as in Python for the ASCII range. -/
def lowerStr (s : String) : String := ⟨s.data.map Char.toLower⟩

theorem beginsWith_iff (n h : List Char) : beginsWith n h = true ↔ ∃ q, h = n ++ q := by
  induction n generalizing h with
  | nil => simp [beginsWith]
  | cons a as ih =>
    cases h with
    | nil => simp [beginsWith]
    | cons b bs =>
      simp only [beginsWith, Bool.and_eq_true, beq_iff_eq, ih]
      constructor
      · rintro ⟨rfl, q, rfl⟩; exact ⟨q, rfl⟩
      · rintro ⟨q, hq⟩
        cases hq
        exact ⟨rfl, q, rfl⟩

theorem containsSub_iff (n h : List Char) :
    containsSub n h = true ↔ ∃ p q, h = p ++ n ++ q := by
  induction h with
  | nil =>
    simp only [containsSub, List.isEmpty_iff]
    constructor
    · rintro rfl; exact ⟨[], [], rfl⟩
    · rintro ⟨p, q, hpq⟩
      rcases List.append_eq_nil.mp (List.append_eq_nil.mp hpq.symm).1 with ⟨-, h2⟩
      exact h2
  | cons c t ih =>
    simp only [containsSub, Bool.or_eq_true, beginsWith_iff, ih]
    constructor
    · rintro (⟨q, hq⟩ | ⟨p, q, hq⟩)
      · exact ⟨[], q, by simpa using hq⟩
      · exact ⟨c :: p, q, by simp [hq]⟩
    · rintro ⟨p, q, hq⟩
      cases p with
      | nil => exact Or.inl ⟨q, by simpa using hq⟩
      | cons x xs =>
        right
        refine ⟨xs, q, ?_⟩
        have := hq
        simp only [List.cons_append] at this
        exact (List.cons.injEq _ _ _ _ ▸ this : _ ∧ _).2

theorem containsSub_self (n : List Char) : containsSub n n = true := by
  rw [containsSub_iff]; exact ⟨[], [], by simp⟩

theorem length_le_of_containsSub {n h : List Char} (hc : containsSub n h = true) :
    n.length ≤ h.length := by
  rcases (containsSub_iff n h).mp hc with ⟨p, q, rfl⟩
  simp; omega

theorem eq_of_containsSub_of_length {n h : List Char} (hc : containsSub n h = true)
    (hl : h.length ≤ n.length) : n = h := by
  rcases (containsSub_iff n h).mp hc with ⟨p, q, rfl⟩
  simp only [List.length_append] at hl
  have hp : p.length = 0 := by omega
  have hq : q.length = 0 := by omega
  simp [List.length_eq_zero.mp hp, List.length_eq_zero.mp hq]

/-! ## Title normalization and similarity (`_normalize_title`,
`_calculate_title_similarity` in main.py) -/

/-- Python regex `\w` (word character) as used by `_normalize_title`'s
`re.sub(r'[^\w]', '', ...)`: ASCII letters, digits and underscore.  Every
non-ASCII character is modelled as a word character (so Japanese text is
kept while ASCII punctuation and whitespace are stripped, matching Python
on the character ranges exercised here). -/
def pyWordChar (c : Char) : Bool := c.isAlphanum || c == '_' || (128 : UInt32) ≤ c.val

/-- `_normalize_title`: lowercase the title, then delete every non-word
character. -/
def normalizeTitle (t : String) : List Char :=
  (t.data.map Char.toLower).filter pyWordChar

/-- Python `min` on two naturals, kept as an executable conditional. -/
def natMin (a b : Nat) : Nat := if a ≤ b then a else b

/-- Python `max` on two naturals, kept as an executable conditional. -/
def natMax (a b : Nat) : Nat := if a ≤ b then b else a

/-- Python `min` on two rationals, kept as an executable conditional. -/
def ratMin (a b : ℚ) : ℚ := if a ≤ b then a else b

/-- Python `max` on two rationals, kept as an executable conditional. -/
def ratMax (a b : ℚ) : ℚ := if a ≤ b then b else a

theorem natMin_comm (a b : Nat) : natMin a b = natMin b a := by
  unfold natMin; split <;> split <;> omega

theorem natMax_comm (a b : Nat) : natMax a b = natMax b a := by
  unfold natMax; split <;> split <;> omega

/-- The containment test of the partial-match branch of
`_calculate_title_similarity`: the code first branches on which normalized
title is shorter and then asks whether the shorter one is a substring of
the longer one. -/
def simSubstringOk (n1 n2 : List Char) : Bool :=
  if n1.length ≤ n2.length then containsSub n1 n2 else containsSub n2 n1

/-- `int(shorter * 0.8)` from the prefix-overlap branch.  For the list
lengths involved the float product `n * 0.8` rounds to a value whose
truncation is exactly `⌊4n/5⌋`. -/
def overlapLength (shorter : Nat) : Nat := natMin shorter (shorter * 4 / 5)

/-- `sum(1 for c in set(norm1) if c in norm2)`: the number of distinct
characters of `n1` that occur in `n2`. -/
def jaccardCommon (n1 n2 : List Char) : Nat :=
  (n1.dedup.filter (fun c => n2.contains c)).length

/-- `len(set(norm1) | set(norm2))`: the number of distinct characters
occurring in `n1` or `n2`. -/
def jaccardTotal (n1 n2 : List Char) : Nat := ((n1 ++ n2).dedup).length

/-- The 3-character common-substring bonus test: some window
`norm1[i:i+3]` occurs in `norm2`. -/
def has3CommonSub (n1 n2 : List Char) : Bool :=
  (List.range (n1.length - 2)).any (fun i => containsSub ((n1.drop i).take 3) n2)

/-- The final weighted blend of `_calculate_title_similarity`:
`0.5 * jaccard + 0.3 * length_ratio + (0.2 common-substring bonus)`,
capped at 1. -/
def blendScore (n1 n2 : List Char) : ℚ :=
  let common := jaccardCommon n1 n2
  let total := jaccardTotal n1 n2
  if total = 0 then 0
  else
    let jac : ℚ := (common : ℚ) / (total : ℚ)
    let lenSim : ℚ :=
      if 0 < natMax n1.length n2.length then
        (natMin n1.length n2.length : ℚ) / (natMax n1.length n2.length : ℚ)
      else 0
    let css : ℚ := if has3CommonSub n1 n2 then 1/5 else 0
    ratMin (jac * (1/2) + lenSim * (3/10) + css) 1

/-- Body of `_calculate_title_similarity` after the two titles have been
normalized, following the source's branch structure: empty-normalization
guard, exact match, substring containment for 10-plus-character titles,
80 percent prefix overlap for 5-plus-character titles, then the weighted
blend. -/
def similarityOfNormalized (n1 n2 : List Char) : ℚ :=
  if n1.isEmpty || n2.isEmpty then 0
  else if n1 = n2 then 1
  else
    let shorter := natMin n1.length n2.length
    let longer := natMax n1.length n2.length
    if 10 ≤ shorter ∧ simSubstringOk n1 n2 = true then
      ratMax ((shorter : ℚ) / (longer : ℚ)) (7/10)
    else if 5 ≤ shorter ∧
        n1.take (overlapLength shorter) = n2.take (overlapLength shorter) then
      3/4
    else blendScore n1 n2

/-- `_calculate_title_similarity` (main.py): similarity score in `[0, 1]`
between two raw titles. -/
def calculateTitleSimilarity (t1 t2 : String) : ℚ :=
  similarityOfNormalized (normalizeTitle t1) (normalizeTitle t2)

/-! ### Symmetry of the similarity score -/

theorem containsSub_iff_eq_of_length_eq {n h : List Char} (hl : n.length = h.length) :
    containsSub n h = true ↔ n = h := by
  constructor
  · intro hc; exact eq_of_containsSub_of_length hc hl.ge
  · rintro rfl; exact containsSub_self n

theorem simSubstringOk_comm (n1 n2 : List Char) :
    simSubstringOk n1 n2 = simSubstringOk n2 n1 := by
  unfold simSubstringOk
  rcases lt_trichotomy n1.length n2.length with h | h | h
  · rw [if_pos h.le, if_neg (by omega)]
  · rw [if_pos h.le, if_pos h.ge, Bool.eq_iff_iff,
      containsSub_iff_eq_of_length_eq h, containsSub_iff_eq_of_length_eq h.symm]
    exact eq_comm
  · rw [if_neg (by omega), if_pos h.le]

theorem jaccardCommon_comm (n1 n2 : List Char) :
    jaccardCommon n1 n2 = jaccardCommon n2 n1 := by
  unfold jaccardCommon
  refine List.Perm.length_eq ?_
  rw [List.perm_ext_iff_of_nodup ((List.nodup_dedup n1).filter _)
    ((List.nodup_dedup n2).filter _)]
  intro c
  simp only [List.mem_filter, List.mem_dedup, List.contains_iff_exists_mem_beq,
    beq_iff_eq]
  constructor
  · rintro ⟨h1, x, h2, rfl⟩; exact ⟨h2, c, h1, rfl⟩
  · rintro ⟨h1, x, h2, rfl⟩; exact ⟨h2, c, h1, rfl⟩

theorem jaccardTotal_comm (n1 n2 : List Char) :
    jaccardTotal n1 n2 = jaccardTotal n2 n1 := by
  unfold jaccardTotal
  refine List.Perm.length_eq ?_
  rw [List.perm_ext_iff_of_nodup (List.nodup_dedup _) (List.nodup_dedup _)]
  intro c
  simp only [List.mem_dedup, List.mem_append]
  exact or_comm

theorem has3CommonSub_iff (n1 n2 : List Char) :
    has3CommonSub n1 n2 = true ↔
      ∃ s : List Char, s.length = 3 ∧ containsSub s n1 = true ∧ containsSub s n2 = true := by
  unfold has3CommonSub
  rw [List.any_eq_true]
  constructor
  · rintro ⟨i, hi, hc⟩
    rw [List.mem_range] at hi
    refine ⟨(n1.drop i).take 3, ?_, ?_, hc⟩
    · rw [List.length_take, List.length_drop]; omega
    · rw [containsSub_iff]
      refine ⟨n1.take i, n1.drop (i + 3), ?_⟩
      conv_lhs => rw [← List.take_append_drop i n1]
      rw [List.append_assoc]
      congr 1
      conv_lhs => rw [← List.take_append_drop 3 (n1.drop i)]
      rw [List.drop_drop]
  · rintro ⟨s, hs3, hs1, hs2⟩
    rcases (containsSub_iff s n1).mp hs1 with ⟨p, q, rfl⟩
    refine ⟨p.length, ?_, ?_⟩
    · rw [List.mem_range]
      simp only [List.length_append, hs3]
      omega
    · have hdrop : (p ++ s ++ q).drop p.length = s ++ q := by
        rw [List.append_assoc, List.drop_left]
      rw [hdrop, ← hs3, List.take_left]
      exact hs2

theorem has3CommonSub_comm (n1 n2 : List Char) :
    has3CommonSub n1 n2 = has3CommonSub n2 n1 := by
  rw [Bool.eq_iff_iff, has3CommonSub_iff, has3CommonSub_iff]
  constructor
  · rintro ⟨s, h3, h1, h2⟩; exact ⟨s, h3, h2, h1⟩
  · rintro ⟨s, h3, h1, h2⟩; exact ⟨s, h3, h2, h1⟩

theorem blendScore_comm (n1 n2 : List Char) : blendScore n1 n2 = blendScore n2 n1 := by
  simp only [blendScore]
  rw [jaccardCommon_comm, jaccardTotal_comm, natMin_comm, natMax_comm, has3CommonSub_comm]

theorem similarityOfNormalized_comm (n1 n2 : List Char) :
    similarityOfNormalized n1 n2 = similarityOfNormalized n2 n1 := by
  simp only [similarityOfNormalized]
  by_cases he : (n1.isEmpty || n2.isEmpty) = true
  · have he2 : (n2.isEmpty || n1.isEmpty) = true := by rw [Bool.or_comm] at he; exact he
    rw [if_pos he, if_pos he2]
  · have he2 : ¬(n2.isEmpty || n1.isEmpty) = true := by rw [Bool.or_comm] at he; exact he
    rw [if_neg he, if_neg he2]
    by_cases heq : n1 = n2
    · rw [if_pos heq, if_pos heq.symm]
    · have heq2 : ¬n2 = n1 := fun k => heq k.symm
      rw [if_neg heq, if_neg heq2]
      by_cases hsub : 10 ≤ natMin n1.length n2.length ∧ simSubstringOk n1 n2 = true
      · have hsub' : 10 ≤ natMin n2.length n1.length ∧ simSubstringOk n2 n1 = true := by
          rw [natMin_comm, simSubstringOk_comm] at hsub; exact hsub
        rw [if_pos hsub, if_pos hsub', natMin_comm n2.length, natMax_comm n2.length]
      · have hsub' : ¬(10 ≤ natMin n2.length n1.length ∧ simSubstringOk n2 n1 = true) := by
          rw [natMin_comm, simSubstringOk_comm] at hsub; exact hsub
        rw [if_neg hsub, if_neg hsub']
        by_cases hpre : 5 ≤ natMin n1.length n2.length ∧
            n1.take (overlapLength (natMin n1.length n2.length)) =
              n2.take (overlapLength (natMin n1.length n2.length))
        · have hpre' : 5 ≤ natMin n2.length n1.length ∧
              n2.take (overlapLength (natMin n2.length n1.length)) =
                n1.take (overlapLength (natMin n2.length n1.length)) := by
            rw [natMin_comm n2.length]
            exact ⟨hpre.1, hpre.2.symm⟩
          rw [if_pos hpre, if_pos hpre']
        · have hpre' : ¬(5 ≤ natMin n2.length n1.length ∧
              n2.take (overlapLength (natMin n2.length n1.length)) =
                n1.take (overlapLength (natMin n2.length n1.length))) := by
            rw [natMin_comm n2.length]
            intro hk
            exact hpre ⟨hk.1, hk.2.symm⟩
          rw [if_neg hpre, if_neg hpre']
          exact blendScore_comm n1 n2

theorem calculateTitleSimilarity_comm (t1 t2 : String) :
    calculateTitleSimilarity t1 t2 = calculateTitleSimilarity t2 t1 :=
  similarityOfNormalized_comm _ _

theorem le_ratMax_right (a b : ℚ) : b ≤ ratMax a b := by
  unfold ratMax
  split
  · exact le_rfl
  · exact (not_le.mp (by assumption)).le

theorem similarityOfNormalized_self {n : List Char} (h : n ≠ []) :
    similarityOfNormalized n n = 1 := by
  unfold similarityOfNormalized
  rw [if_neg, if_pos rfl]
  simp [List.isEmpty_iff, h]

theorem similarityOfNormalized_empty {n1 n2 : List Char} (h : n1 = [] ∨ n2 = []) :
    similarityOfNormalized n1 n2 = 0 := by
  unfold similarityOfNormalized
  rw [if_pos]
  rcases h with rfl | rfl <;> simp [List.isEmpty_iff]

theorem similarityOfNormalized_substring {n1 n2 : List Char} (h10 : 10 ≤ n1.length)
    (hle : n1.length ≤ n2.length) (hc : containsSub n1 n2 = true) :
    7/10 ≤ similarityOfNormalized n1 n2 := by
  have hmin : natMin n1.length n2.length = n1.length := by unfold natMin; rw [if_pos hle]
  unfold similarityOfNormalized
  rw [if_neg]
  · by_cases heq : n1 = n2
    · rw [if_pos heq]; norm_num
    · rw [if_neg heq, if_pos]
      · exact le_ratMax_right _ _
      · refine ⟨by rw [hmin]; exact h10, ?_⟩
        unfold simSubstringOk
        rw [if_pos hle]
        exact hc
  · have h1 : n1 ≠ [] := List.length_pos.mp (by omega)
    have h2 : n2 ≠ [] := List.length_pos.mp (by omega)
    simp [List.isEmpty_iff, h1, h2]

/-- Every similarity score below 3/4 means the two normalized titles are
not flagged as duplicates; conversely a score of at least 3/4 forces both
normalized titles to be non-empty (the empty guard returns 0). -/
theorem normalize_ne_nil_of_sim_ge {t1 t2 : String}
    (h : 3/4 ≤ calculateTitleSimilarity t1 t2) :
    normalizeTitle t1 ≠ [] ∧ normalizeTitle t2 ≠ [] := by
  constructor
  · intro k
    rw [calculateTitleSimilarity, similarityOfNormalized_empty (Or.inl k)] at h
    norm_num at h
  · intro k
    rw [calculateTitleSimilarity, similarityOfNormalized_empty (Or.inr k)] at h
    norm_num at h

/-- A title whose similarity with anything reaches 3/4 cannot be the empty
string. -/
theorem title_ne_empty_of_sim_ge {t1 t2 : String}
    (h : 3/4 ≤ calculateTitleSimilarity t1 t2) : t1 ≠ "" ∧ t2 ≠ "" := by
  rcases normalize_ne_nil_of_sim_ge h with ⟨h1, h2⟩
  constructor
  · intro k; rw [k] at h1; exact h1 rfl
  · intro k; rw [k] at h2; exact h2 rfl

/-- **C9**: the title-similarity function is symmetric: swapping the two
title arguments never changes the score, even though the 3-character
common-substring bonus is scanned only over the first argument's windows
(a common 3-character window of one title is always a common 3-character
window of the other). -/
theorem C9_title_similarity_symmetric (t1 t2 : String) :
    calculateTitleSimilarity t1 t2 = calculateTitleSimilarity t2 t1 :=
  calculateTitleSimilarity_comm t1 t2

/-- **C2** (as frozen) is false on two boundary inputs: the titles `"!"`
and `"?"` normalize to the same (empty) string yet score 0 rather than 1,
and the titles `"abc"` and `"def"` have disjoint character sets yet score
3/10 rather than 0 (the blend's length-ratio term is positive). -/
theorem C2_counterexample :
    (normalizeTitle "!" = normalizeTitle "?" ∧ calculateTitleSimilarity "!" "?" ≠ 1)
    ∧ ((∀ c ∈ ("abc" : String).data, c ∉ ("def" : String).data)
      ∧ calculateTitleSimilarity "abc" "def" = 3/10) := by
  refine ⟨⟨by decide, by decide⟩, by decide, by decide⟩

/-- **C2** (amended): the similarity function returns 1.0 whenever the two
normalized titles are identical *and non-empty*; returns 0.0 whenever at
least one of the normalized titles is empty (two non-empty titles with
disjoint character sets instead score a positive blend value); and returns
at least 0.7 whenever the shorter normalized title has length at least 10
and is a substring of the longer one. -/
theorem C2_title_similarity_boundary (t1 t2 : String) :
    (normalizeTitle t1 = normalizeTitle t2 → normalizeTitle t1 ≠ [] →
      calculateTitleSimilarity t1 t2 = 1)
    ∧ (normalizeTitle t1 = [] ∨ normalizeTitle t2 = [] →
      calculateTitleSimilarity t1 t2 = 0)
    ∧ (10 ≤ (normalizeTitle t1).length →
      (normalizeTitle t1).length ≤ (normalizeTitle t2).length →
      containsSub (normalizeTitle t1) (normalizeTitle t2) = true →
      7/10 ≤ calculateTitleSimilarity t1 t2) := by
  refine ⟨fun heq hne => ?_, fun he => similarityOfNormalized_empty he, ?_⟩
  · rw [calculateTitleSimilarity, heq]
    exact similarityOfNormalized_self (heq ▸ hne)
  · intro h10 hle hc
    exact similarityOfNormalized_substring h10 hle hc

/-- Witness for the amended C2 at concrete inputs: `"Ab"` and `"aB!"`
normalize identically and score 1; `"!"` normalizes to nothing and scores
0 against `"x"`; the 11-character title `"abcdefghijk"` contains the
10-character title `"abcdefghij"` and scores at least 0.7. -/
theorem C2_title_similarity_boundary_witness :
    calculateTitleSimilarity "Ab" "aB!" = 1
    ∧ calculateTitleSimilarity "!" "x" = 0
    ∧ 7/10 ≤ calculateTitleSimilarity "abcdefghij" "abcdefghijk" :=
  ⟨(C2_title_similarity_boundary "Ab" "aB!").1 (by decide) (by decide),
   (C2_title_similarity_boundary "!" "x").2.1 (Or.inl (by decide)),
   (C2_title_similarity_boundary "abcdefghij" "abcdefghijk").2.2
     (by decide) (by decide) (by decide)⟩

/-! ## The Article record (fetcher.py) and the deduplicator (main.py) -/

/-- The `Article` dataclass of fetcher.py.  `published_at` is a parsed
timestamp; only its total order matters downstream (`sort_articles`
compares `datetime.timestamp()` values), so it is modelled as an integer
epoch value. -/
structure Article where
  title : String
  link : String
  published : Option String := none
  summary : Option String := none
  published_at : Option Int := none
  matched_keywords : Option (List String) := none
deriving DecidableEq, Repr

/-- `_get_source_priority` (main.py): smaller number = higher priority,
decided by substring-matching known domains inside the link. -/
def getSourcePriority (link : String) : Nat :=
  if strContains link "prtimes.jp" then 1
  else if strContains link "medicaltech-news.com" then 2
  else if strContains link "ht-watch.com" then 3
  else if strContains link "news.google.com" then 4
  else 5

theorem getSourcePriority_le_five (link : String) : getSourcePriority link ≤ 5 := by
  unfold getSourcePriority
  split
  · omega
  · split
    · omega
    · split
      · omega
      · split <;> omega

theorem getSourcePriority_empty : getSourcePriority "" = 5 := by decide

/-- `article.link.rstrip("/").split("?")[0]`: drop every trailing slash,
then keep only the part before the first question mark. -/
def normalizedUrl (link : String) : String :=
  ⟨((link.data.reverse.dropWhile (fun c => c == '/')).reverse).takeWhile
    (fun c => !(c == '?'))⟩

/-- First stage of `deduplicate_articles`: drop articles with an empty
link, keep only the first article per normalized URL (`seen` carries the
normalized URLs already accepted). -/
def urlDedup : List Article → List String → List Article
  | [], _ => []
  | a :: rest, seen =>
    if a.link = "" then urlDedup rest seen
    else
      if normalizedUrl a.link ∈ seen then urlDedup rest seen
      else a :: urlDedup rest (normalizedUrl a.link :: seen)

/-- `SIMILARITY_THRESHOLD` (main.py): 0.75. -/
def SIMILARITY_THRESHOLD : ℚ := 3/4

/-- One iteration of the title-dedup loop body of `deduplicate_articles`:
scan the accepted list for the first entry whose title is similar to the
incoming article's; on a hit keep whichever article's source has the
smaller priority number (the incoming one replaces by remove-and-append),
otherwise append the incoming article. -/
def titleDedupInsert (acc : List Article) (a : Article) : List Article :=
  match acc.find? (fun e =>
      decide (SIMILARITY_THRESHOLD ≤ calculateTitleSimilarity a.title e.title)) with
  | none => acc ++ [a]
  | some e =>
    if getSourcePriority a.link < getSourcePriority e.link then
      acc.erase e ++ [a]
    else acc

/-- The title-dedup loop body including the `if not article.title` guard:
articles whose title is the empty string are skipped outright. -/
def titleDedupStep (acc : List Article) (a : Article) : List Article :=
  if a.title = "" then acc else titleDedupInsert acc a

/-- `deduplicate_articles` (main.py): exact-URL deduplication followed by
fuzzy-title deduplication with priority-based replacement. -/
def deduplicateArticles (articles : List Article) : List Article :=
  (urlDedup articles []).foldl titleDedupStep []

theorem mem_urlDedup {l : List Article} {seen : List String} {a : Article}
    (h : a ∈ urlDedup l seen) : a ∈ l ∧ a.link ≠ "" := by
  induction l generalizing seen with
  | nil => simp [urlDedup] at h
  | cons b rest ih =>
    rw [urlDedup] at h
    split at h
    · rcases ih h with ⟨h1, h2⟩; exact ⟨List.mem_cons_of_mem _ h1, h2⟩
    · split at h
      · rcases ih h with ⟨h1, h2⟩; exact ⟨List.mem_cons_of_mem _ h1, h2⟩
      · rcases List.mem_cons.mp h with rfl | h'
        · exact ⟨List.mem_cons_self _ _, by assumption⟩
        · rcases ih h' with ⟨h1, h2⟩; exact ⟨List.mem_cons_of_mem _ h1, h2⟩

theorem mem_titleDedupStep {acc : List Article} {a x : Article}
    (h : x ∈ titleDedupStep acc a) : x ∈ acc ∨ (x = a ∧ a.title ≠ "") := by
  unfold titleDedupStep at h
  split at h
  · exact Or.inl h
  · unfold titleDedupInsert at h
    split at h
    · rcases List.mem_append.mp h with h' | h'
      · exact Or.inl h'
      · exact Or.inr ⟨List.mem_singleton.mp h', by assumption⟩
    · split at h
      · rcases List.mem_append.mp h with h' | h'
        · exact Or.inl (List.mem_of_mem_erase h')
        · exact Or.inr ⟨List.mem_singleton.mp h', by assumption⟩
      · exact Or.inl h

theorem mem_foldl_titleDedupStep {l acc : List Article} {x : Article}
    (h : x ∈ l.foldl titleDedupStep acc) :
    x ∈ acc ∨ (x ∈ l ∧ x.title ≠ "") := by
  induction l generalizing acc with
  | nil => exact Or.inl h
  | cons b rest ih =>
    rw [List.foldl_cons] at h
    rcases ih h with h' | h'
    · rcases mem_titleDedupStep h' with h'' | ⟨rfl, hb⟩
      · exact Or.inl h''
      · exact Or.inr ⟨List.mem_cons_self _ _, hb⟩
    · exact Or.inr ⟨List.mem_cons_of_mem _ h'.1, h'.2⟩

/-- **C10**: every article surviving `deduplicate_articles` has a
non-empty link (empty links are dropped by the URL stage) and a non-empty
title (empty titles are dropped by the title stage even when they
duplicate nothing). -/
theorem C10_dedup_output_nonempty_fields {l : List Article} {a : Article}
    (h : a ∈ deduplicateArticles l) : a.link ≠ "" ∧ a.title ≠ "" := by
  unfold deduplicateArticles at h
  rcases mem_foldl_titleDedupStep h with h' | ⟨hmem, htitle⟩
  · simp at h'
  · exact ⟨(mem_urlDedup hmem).2, htitle⟩

/-- Witness for C10: a concrete article surviving deduplication indeed has
non-empty link and title. -/
theorem C10_dedup_output_nonempty_fields_witness :
    (Article.mk "t" "https://e.com/1" none none none none).link ≠ ""
    ∧ (Article.mk "t" "https://e.com/1" none none none none).title ≠ "" :=
  C10_dedup_output_nonempty_fields
    (l := [Article.mk "t" "https://e.com/1" none none none none]) (by decide)

/-- Deduplicating a two-article list that survives the URL stage intact:
the second article is flagged as a duplicate of the first and the one with
the smaller priority number is kept. -/
theorem dedup_pair_eq {a b : Article} (ha : a.link ≠ "") (hb : b.link ≠ "")
    (hurl : normalizedUrl a.link ≠ normalizedUrl b.link) (hat : a.title ≠ "")
    (hbt : b.title ≠ "")
    (hsim : SIMILARITY_THRESHOLD ≤ calculateTitleSimilarity b.title a.title) :
    deduplicateArticles [a, b] =
      if getSourcePriority b.link < getSourcePriority a.link then [b] else [a] := by
  have hu : urlDedup [a, b] [] = [a, b] := by
    simp [urlDedup, ha, hb, Ne.symm hurl]
  unfold deduplicateArticles
  rw [hu]
  by_cases hp : getSourcePriority b.link < getSourcePriority a.link
  · simp [List.foldl, titleDedupStep, titleDedupInsert, hat, hbt, List.find?, hsim, hp]
  · simp [List.foldl, titleDedupStep, titleDedupInsert, hat, hbt, List.find?, hsim, hp]

/-- **C1** (as frozen) is false when the two links collide on their
normalized URL: both links below normalize to `"https://x.com/a"`, so the
URL stage keeps only the first-seen article regardless of priority.  With
identical titles (similarity 1) and priorities 5 versus 1, the input order
low-priority-first retains the low-priority article, not the
higher-priority one. -/
theorem C1_counterexample :
    SIMILARITY_THRESHOLD ≤ calculateTitleSimilarity "medicalnews" "medicalnews"
    ∧ getSourcePriority "https://x.com/a?ref=prtimes.jp" <
        getSourcePriority "https://x.com/a"
    ∧ deduplicateArticles
        [Article.mk "medicalnews" "https://x.com/a" none none none none,
         Article.mk "medicalnews" "https://x.com/a?ref=prtimes.jp" none none none none]
      = [Article.mk "medicalnews" "https://x.com/a" none none none none] := by
  refine ⟨by decide, by decide, by decide⟩

/-- **C1** (amended): for two articles whose title similarity reaches the
0.75 duplicate threshold, whose links map to different source priorities,
and whose *normalized URLs differ* (so the pair reaches the title stage;
equal normalized URLs are resolved first-seen-wins by the URL stage),
deduplication outputs exactly the article with the smaller priority
number, in either input order. -/
theorem C1_dedup_priority_determinism (a b : Article)
    (hsim : SIMILARITY_THRESHOLD ≤ calculateTitleSimilarity a.title b.title)
    (hprio : getSourcePriority a.link ≠ getSourcePriority b.link)
    (hurl : normalizedUrl a.link ≠ normalizedUrl b.link) :
    deduplicateArticles [a, b] =
      [if getSourcePriority a.link < getSourcePriority b.link then a else b]
    ∧ deduplicateArticles [b, a] =
      [if getSourcePriority a.link < getSourcePriority b.link then a else b] := by
  have hts := title_ne_empty_of_sim_ge hsim
  have hsim2 : SIMILARITY_THRESHOLD ≤ calculateTitleSimilarity b.title a.title := by
    rw [calculateTitleSimilarity_comm b.title a.title]; exact hsim
  by_cases ha : a.link = ""
  · have hpa : getSourcePriority a.link = 5 := by rw [ha]; decide
    have hb : b.link ≠ "" := fun k => hprio (by rw [ha, k])
    have hpb : getSourcePriority b.link < 5 :=
      lt_of_le_of_ne (getSourcePriority_le_five _) (fun k => hprio (by rw [hpa, k]))
    have hcond : ¬(getSourcePriority a.link < getSourcePriority b.link) := by omega
    have hur : urlDedup [a, b] [] = [b] := by
      rw [urlDedup, if_pos ha]; simp [urlDedup, hb]
    have hur2 : urlDedup [b, a] [] = [b] := by
      simp [urlDedup, hb, ha]
    have hfold : [b].foldl titleDedupStep [] = [b] := by
      simp [titleDedupStep, titleDedupInsert, hts.2, List.find?]
    rw [deduplicateArticles, hur, deduplicateArticles, hur2, hfold, if_neg hcond]
    exact ⟨rfl, rfl⟩
  · by_cases hb : b.link = ""
    · have hpb : getSourcePriority b.link = 5 := by rw [hb]; decide
      have hpa : getSourcePriority a.link < 5 :=
        lt_of_le_of_ne (getSourcePriority_le_five _) (fun k => hprio (by rw [hpb, k]))
      have hcond : getSourcePriority a.link < getSourcePriority b.link := by omega
      have hur : urlDedup [a, b] [] = [a] := by
        simp [urlDedup, ha, hb]
      have hur2 : urlDedup [b, a] [] = [a] := by
        rw [urlDedup, if_pos hb]; simp [urlDedup, ha]
      have hfold : [a].foldl titleDedupStep [] = [a] := by
        simp [titleDedupStep, titleDedupInsert, hts.1, List.find?]
      rw [deduplicateArticles, hur, deduplicateArticles, hur2, hfold, if_pos hcond]
      exact ⟨rfl, rfl⟩
    · have h1 := dedup_pair_eq ha hb hurl hts.1 hts.2 hsim2
      have h2 := dedup_pair_eq hb ha (Ne.symm hurl) hts.2 hts.1 hsim
      rcases Nat.lt_or_ge (getSourcePriority a.link) (getSourcePriority b.link)
        with hlt | hge
      · rw [h1, h2, if_pos hlt, if_neg (by omega), if_pos hlt]
        exact ⟨rfl, rfl⟩
      · have hgt : getSourcePriority b.link < getSourcePriority a.link := by
          rcases Nat.lt_or_ge (getSourcePriority b.link) (getSourcePriority a.link)
            with h | h
          · exact h
          · exact absurd (Nat.le_antisymm h hge) hprio
        rw [h1, h2, if_pos hgt, if_neg (by omega), if_neg (by omega)]
        exact ⟨rfl, rfl⟩

/-- Witness for the amended C1 at concrete articles: identical titles,
a PR-TIMES link (priority 1) against an unrecognized domain (priority 5),
distinct normalized URLs; both input orders keep the priority-1 article. -/
theorem C1_dedup_priority_determinism_witness :
    deduplicateArticles
        [Article.mk "medicalnews" "https://prtimes.jp/a" none none none none,
         Article.mk "medicalnews" "https://x.com/b" none none none none]
      = [if getSourcePriority "https://prtimes.jp/a" < getSourcePriority "https://x.com/b"
          then Article.mk "medicalnews" "https://prtimes.jp/a" none none none none
          else Article.mk "medicalnews" "https://x.com/b" none none none none]
    ∧ deduplicateArticles
        [Article.mk "medicalnews" "https://x.com/b" none none none none,
         Article.mk "medicalnews" "https://prtimes.jp/a" none none none none]
      = [if getSourcePriority "https://prtimes.jp/a" < getSourcePriority "https://x.com/b"
          then Article.mk "medicalnews" "https://prtimes.jp/a" none none none none
          else Article.mk "medicalnews" "https://x.com/b" none none none none] :=
  C1_dedup_priority_determinism
    (Article.mk "medicalnews" "https://prtimes.jp/a" none none none none)
    (Article.mk "medicalnews" "https://x.com/b" none none none none)
    (by decide) (by decide) (by decide)

/-! ## The topical filter (filter.py) -/

/-- `f"{article.title} {article.summary or ''}"`: the text keywords are
matched against; a missing summary contributes the empty string. -/
def articleText (a : Article) : String := a.title ++ " " ++ a.summary.getD ""

/-- The per-article body of the loop in `filter_articles`: `none` when the
article is dropped, otherwise the surviving copy with `matched_keywords`
attached (original casing, medical keywords first, each group in
configured order).  The Python defaults `exclude_keywords=None` and
`exclude_domains=None` are modelled by empty lists. -/
def keepArticle (medical it exclude excludeDomains : List String) (a : Article) :
    Option Article :=
  let medKw := medical.map lowerStr
  let itKw := it.map lowerStr
  let ngKw := exclude.map lowerStr
  let ngDomains := excludeDomains.map lowerStr
  if ngDomains ≠ [] ∧ a.link ≠ "" ∧
      ngDomains.any (fun d => strContains (lowerStr a.link) d) then none
  else
    let text := lowerStr (articleText a)
    if ngKw ≠ [] ∧ ngKw.any (fun kw => strContains text kw) then none
    else
      let matchedMed := medKw.filter (fun kw => strContains text kw)
      if matchedMed = [] then none
      else
        let matchedIt := itKw.filter (fun kw => strContains text kw)
        if matchedIt = [] then none
        else
          let matchedKeywords :=
            medical.filter (fun kw => matchedMed.contains (lowerStr kw))
              ++ it.filter (fun kw => matchedIt.contains (lowerStr kw))
          some { a with matched_keywords := some matchedKeywords }

/-- `filter_articles` (filter.py): keep, in order, the articles the
per-article decision accepts. -/
def filterArticles (articles : List Article)
    (medical it exclude excludeDomains : List String) : List Article :=
  articles.filterMap (keepArticle medical it exclude excludeDomains)

/-- **C3** (as frozen) is false at one boundary input: an article with an
empty link survives the filter even when the empty string is configured as
an excluded domain, although the empty string is a (case-insensitive)
substring of the empty link — the code skips the domain check entirely for
falsy links. -/
theorem C3_counterexample :
    (keepArticle ["med"] ["it"] [] [""]
        (Article.mk "med it" "" none none none none)).isSome = true
    ∧ strContains (lowerStr "") (lowerStr "") = true := by
  refine ⟨by decide, by decide⟩

/-- **C3** (amended): an article survives the topical filter iff its
lowercased title-plus-summary text contains at least one medical keyword,
at least one IT keyword, no exclude keyword, and *either the link is empty
or* the link matches no excluded domain (case-insensitive substring
matching throughout; the domain check is skipped for empty links). -/
theorem C3_filter_survival (medical it exclude excludeDomains : List String)
    (a : Article) :
    (keepArticle medical it exclude excludeDomains a).isSome = true ↔
      ((∃ kw ∈ medical, strContains (lowerStr (articleText a)) (lowerStr kw) = true)
       ∧ (∃ kw ∈ it, strContains (lowerStr (articleText a)) (lowerStr kw) = true)
       ∧ (∀ kw ∈ exclude, strContains (lowerStr (articleText a)) (lowerStr kw) = false)
       ∧ (a.link = "" ∨
          ∀ d ∈ excludeDomains, strContains (lowerStr a.link) (lowerStr d) = false)) := by
  simp only [keepArticle]
  split_ifs with h1 h2 h3 h4
  · simp only [Option.isSome_none, Bool.false_eq_true, false_iff]
    rintro ⟨-, -, -, hdom⟩
    obtain ⟨hne, hlink, hany⟩ := h1
    rcases hdom with hl | hall
    · exact hlink hl
    · rcases List.any_eq_true.mp hany with ⟨d, hd, hmatch⟩
      rcases List.mem_map.mp hd with ⟨d0, hd0, rfl⟩
      rw [hall d0 hd0] at hmatch
      exact Bool.false_ne_true hmatch
  · simp only [Option.isSome_none, Bool.false_eq_true, false_iff]
    rintro ⟨-, -, hexcl, -⟩
    obtain ⟨-, hany⟩ := h2
    rcases List.any_eq_true.mp hany with ⟨kw, hkw, hmatch⟩
    rcases List.mem_map.mp hkw with ⟨kw0, hkw0, rfl⟩
    rw [hexcl kw0 hkw0] at hmatch
    exact Bool.false_ne_true hmatch
  · simp only [Option.isSome_none, Bool.false_eq_true, false_iff]
    rintro ⟨⟨kw, hkw, hmatch⟩, -, -, -⟩
    have : lowerStr kw ∈ (medical.map lowerStr).filter
        (fun k => strContains (lowerStr (articleText a)) k) :=
      List.mem_filter.mpr ⟨List.mem_map.mpr ⟨kw, hkw, rfl⟩, hmatch⟩
    rw [h3] at this
    exact absurd this (List.not_mem_nil _)
  · simp only [Option.isSome_none, Bool.false_eq_true, false_iff]
    rintro ⟨-, ⟨kw, hkw, hmatch⟩, -, -⟩
    have : lowerStr kw ∈ (it.map lowerStr).filter
        (fun k => strContains (lowerStr (articleText a)) k) :=
      List.mem_filter.mpr ⟨List.mem_map.mpr ⟨kw, hkw, rfl⟩, hmatch⟩
    rw [h4] at this
    exact absurd this (List.not_mem_nil _)
  · simp only [Option.isSome_some, true_iff]
    refine ⟨?_, ?_, ?_, ?_⟩
    · rcases List.exists_cons_of_ne_nil h3 with ⟨x, xs, hx⟩
      have hxmem : x ∈ (medical.map lowerStr).filter
          (fun k => strContains (lowerStr (articleText a)) k) := by
        rw [hx]; exact List.mem_cons_self _ _
      rcases List.mem_filter.mp hxmem with ⟨hxm, hxc⟩
      rcases List.mem_map.mp hxm with ⟨kw, hkw, rfl⟩
      exact ⟨kw, hkw, hxc⟩
    · rcases List.exists_cons_of_ne_nil h4 with ⟨x, xs, hx⟩
      have hxmem : x ∈ (it.map lowerStr).filter
          (fun k => strContains (lowerStr (articleText a)) k) := by
        rw [hx]; exact List.mem_cons_self _ _
      rcases List.mem_filter.mp hxmem with ⟨hxm, hxc⟩
      rcases List.mem_map.mp hxm with ⟨kw, hkw, rfl⟩
      exact ⟨kw, hkw, hxc⟩
    · intro kw hkw
      by_contra hc
      have hc' : strContains (lowerStr (articleText a)) (lowerStr kw) = true := by
        cases hmatch : strContains (lowerStr (articleText a)) (lowerStr kw)
        · exact absurd hmatch hc
        · rfl
      apply h2
      refine ⟨?_, List.any_eq_true.mpr
        ⟨lowerStr kw, List.mem_map.mpr ⟨kw, hkw, rfl⟩, hc'⟩⟩
      intro k
      rw [List.map_eq_nil_iff.mp k] at hkw
      exact absurd hkw (List.not_mem_nil _)
    · by_cases hl : a.link = ""
      · exact Or.inl hl
      · refine Or.inr fun d hd => ?_
        cases hmatch : strContains (lowerStr a.link) (lowerStr d)
        · rfl
        · exfalso
          refine h1 ⟨?_, hl, List.any_eq_true.mpr
            ⟨lowerStr d, List.mem_map.mpr ⟨d, hd, rfl⟩, hmatch⟩⟩
          intro k
          rw [List.map_eq_nil_iff.mp k] at hd
          exact absurd hd (List.not_mem_nil _)

theorem contains_eq_true_iff {α : Type} [BEq α] [LawfulBEq α] {l : List α} {s : α} :
    l.contains s = true ↔ s ∈ l := by
  rw [List.contains_iff_exists_mem_beq]
  constructor
  · rintro ⟨x, hx, hbeq⟩
    rw [beq_iff_eq] at hbeq
    exact hbeq ▸ hx
  · intro h; exact ⟨s, h, by simp⟩

/-- **C8**: every article output by the filter carries
`matched_keywords = ` (the medical keywords whose lowercase form occurs in
the article's lowercased text, in configured order and original casing)
`++` (the IT keywords matching likewise), and both groups are non-empty. -/
theorem C8_matched_keywords_structure (medical it exclude excludeDomains : List String)
    (l : List Article) (b : Article)
    (hb : b ∈ filterArticles l medical it exclude excludeDomains) :
    b.matched_keywords =
      some (medical.filter
          (fun kw => strContains (lowerStr (articleText b)) (lowerStr kw))
        ++ it.filter (fun kw => strContains (lowerStr (articleText b)) (lowerStr kw)))
    ∧ medical.filter (fun kw => strContains (lowerStr (articleText b)) (lowerStr kw)) ≠ []
    ∧ it.filter (fun kw => strContains (lowerStr (articleText b)) (lowerStr kw)) ≠ [] := by
  rcases List.mem_filterMap.mp hb with ⟨a, ha, heq⟩
  simp only [keepArticle] at heq
  split_ifs at heq with h1 h2 h3 h4
  · have hXb := Option.some.inj heq
    have harticle : articleText b = articleText a := by rw [← hXb]; try rfl
    have hbt : b.matched_keywords =
        some (medical.filter (fun kw =>
            ((medical.map lowerStr).filter
              (fun k => strContains (lowerStr (articleText a)) k)).contains (lowerStr kw))
          ++ it.filter (fun kw =>
            ((it.map lowerStr).filter
              (fun k => strContains (lowerStr (articleText a)) k)).contains (lowerStr kw))) := by
      rw [← hXb]
      try rfl
    rw [harticle]
    have hmed : medical.filter (fun kw =>
        ((medical.map lowerStr).filter
          (fun k => strContains (lowerStr (articleText a)) k)).contains (lowerStr kw))
        = medical.filter (fun kw => strContains (lowerStr (articleText a)) (lowerStr kw)) := by
      apply List.filter_congr
      intro kw hkw
      rw [Bool.eq_iff_iff, contains_eq_true_iff, List.mem_filter]
      constructor
      · rintro ⟨-, h⟩; exact h
      · intro h; exact ⟨List.mem_map.mpr ⟨kw, hkw, rfl⟩, h⟩
    have hit : it.filter (fun kw =>
        ((it.map lowerStr).filter
          (fun k => strContains (lowerStr (articleText a)) k)).contains (lowerStr kw))
        = it.filter (fun kw => strContains (lowerStr (articleText a)) (lowerStr kw)) := by
      apply List.filter_congr
      intro kw hkw
      rw [Bool.eq_iff_iff, contains_eq_true_iff, List.mem_filter]
      constructor
      · rintro ⟨-, h⟩; exact h
      · intro h; exact ⟨List.mem_map.mpr ⟨kw, hkw, rfl⟩, h⟩
    refine ⟨by rw [hbt, hmed, hit], ?_, ?_⟩
    · rcases List.exists_cons_of_ne_nil h3 with ⟨x, xs, hx⟩
      have hxmem : x ∈ (medical.map lowerStr).filter
          (fun k => strContains (lowerStr (articleText a)) k) := by
        rw [hx]; exact List.mem_cons_self _ _
      rcases List.mem_filter.mp hxmem with ⟨hxm, hxc⟩
      rcases List.mem_map.mp hxm with ⟨kw, hkw, rfl⟩
      exact List.ne_nil_of_mem (List.mem_filter.mpr ⟨hkw, hxc⟩)
    · rcases List.exists_cons_of_ne_nil h4 with ⟨x, xs, hx⟩
      have hxmem : x ∈ (it.map lowerStr).filter
          (fun k => strContains (lowerStr (articleText a)) k) := by
        rw [hx]; exact List.mem_cons_self _ _
      rcases List.mem_filter.mp hxmem with ⟨hxm, hxc⟩
      rcases List.mem_map.mp hxm with ⟨kw, hkw, rfl⟩
      exact List.ne_nil_of_mem (List.mem_filter.mpr ⟨hkw, hxc⟩)

/-- Witness for C8 at a concrete run of the filter: the surviving article
carries `["Med", "IT"]` — the matching medical keyword in original casing
first, then the matching IT keyword. -/
theorem C8_matched_keywords_structure_witness :
    (Article.mk "med it x" "https://e.com/1" none none none
        (some ["Med", "IT"])).matched_keywords =
      some ((["Med"].filter (fun kw =>
          strContains (lowerStr (articleText (Article.mk "med it x" "https://e.com/1"
            none none none (some ["Med", "IT"])))) (lowerStr kw)))
        ++ (["IT"].filter (fun kw =>
          strContains (lowerStr (articleText (Article.mk "med it x" "https://e.com/1"
            none none none (some ["Med", "IT"])))) (lowerStr kw))))
    ∧ (["Med"].filter (fun kw =>
        strContains (lowerStr (articleText (Article.mk "med it x" "https://e.com/1"
          none none none (some ["Med", "IT"])))) (lowerStr kw))) ≠ []
    ∧ (["IT"].filter (fun kw =>
        strContains (lowerStr (articleText (Article.mk "med it x" "https://e.com/1"
          none none none (some ["Med", "IT"])))) (lowerStr kw))) ≠ [] :=
  C8_matched_keywords_structure ["Med"] ["IT"] [] []
    [Article.mk "med it x" "https://e.com/1" none none none none]
    (Article.mk "med it x" "https://e.com/1" none none none (some ["Med", "IT"]))
    (by decide)

/-! ## Chronological ordering (`sort_articles`, main.py) -/

/-- Comparison of two `published_at` sort keys: a missing timestamp is
treated as negative infinity (smaller than everything). -/
def optKeyLE : Option Int → Option Int → Bool
  | none, _ => true
  | some _, none => false
  | some s, some t => decide (s ≤ t)

/-- The sort-key comparison of `sort_articles`: articles are keyed by
`published_at.timestamp()`.  `keyLE x y` says x's key is at most y's key. -/
def keyLE (x y : Article) : Bool := optKeyLE x.published_at y.published_at

theorem optKeyLE_total (a b : Option Int) : optKeyLE a b = true ∨ optKeyLE b a = true := by
  rcases a with - | s <;> rcases b with - | t <;> simp [optKeyLE]
  omega

theorem optKeyLE_trans {a b c : Option Int} (h1 : optKeyLE a b = true)
    (h2 : optKeyLE b c = true) : optKeyLE a c = true := by
  rcases a with - | s <;> rcases b with - | t <;> rcases c with - | u <;>
    simp [optKeyLE] at * <;> omega

/-- Stable descending insertion: place `a` before the first
already-placed element whose key is at most `a`'s.  Python's
`sorted(..., reverse=True)` is a stable descending sort, and inserting
each element in input order this way reproduces it exactly (equal keys
keep input order because the earlier element is inserted last and lands
in front). -/
def insertDesc (a : Article) : List Article → List Article
  | [] => [a]
  | b :: bs => if keyLE b a then a :: b :: bs else b :: insertDesc a bs

/-- `sort_articles` (main.py): stable sort, newest first, missing
timestamps last. -/
def sortArticles : List Article → List Article
  | [] => []
  | x :: xs => insertDesc x (sortArticles xs)

theorem keyLE_total (x y : Article) : keyLE x y = true ∨ keyLE y x = true :=
  optKeyLE_total x.published_at y.published_at

theorem keyLE_trans {x y z : Article} (h1 : keyLE x y = true) (h2 : keyLE y z = true) :
    keyLE x z = true :=
  optKeyLE_trans h1 h2

theorem keyLE_of_eq {x y : Article} (h : x.published_at = y.published_at) :
    keyLE x y = true := by
  unfold keyLE
  rw [h]
  rcases y.published_at with - | t <;> simp [optKeyLE]

theorem keyLE_none {x y : Article} (h : keyLE y x = true)
    (hx : x.published_at = none) : y.published_at = none := by
  unfold keyLE at h
  rcases hy : y.published_at with - | t
  · rfl
  · rw [hy, hx] at h
    exact absurd h (by simp [optKeyLE])

theorem mem_insertDesc {a x : Article} {l : List Article} :
    x ∈ insertDesc a l ↔ x = a ∨ x ∈ l := by
  induction l with
  | nil => simp [insertDesc]
  | cons b bs ih =>
    unfold insertDesc
    split
    · simp [List.mem_cons]
    · simp only [List.mem_cons, ih]
      tauto

theorem pairwise_insertDesc {a : Article} {l : List Article}
    (h : l.Pairwise (fun p q => keyLE q p = true)) :
    (insertDesc a l).Pairwise (fun p q => keyLE q p = true) := by
  induction l with
  | nil => simp [insertDesc]
  | cons b bs ih =>
    rcases List.pairwise_cons.mp h with ⟨hb, hbs⟩
    unfold insertDesc
    split
    · refine List.pairwise_cons.mpr ⟨?_, h⟩
      intro x hx
      rcases List.mem_cons.mp hx with rfl | hx'
      · assumption
      · exact keyLE_trans (hb x hx') (by assumption)
    · refine List.pairwise_cons.mpr ⟨?_, ih hbs⟩
      intro x hx
      rcases mem_insertDesc.mp hx with rfl | hx'
      · rcases keyLE_total b x with h' | h'
        · exact absurd h' (by assumption)
        · exact h'
      · exact hb x hx'

theorem sortArticles_pairwise (l : List Article) :
    (sortArticles l).Pairwise (fun p q => keyLE q p = true) := by
  induction l with
  | nil => simp [sortArticles]
  | cons x xs ih => exact pairwise_insertDesc ih

theorem filter_insertDesc_pos {a : Article} {l : List Article} {k : Option Int}
    (ha : a.published_at = k) :
    (insertDesc a l).filter (fun x => decide (x.published_at = k))
      = a :: l.filter (fun x => decide (x.published_at = k)) := by
  induction l with
  | nil => simp [insertDesc, List.filter, ha]
  | cons b bs ih =>
    unfold insertDesc
    split
    · simp [List.filter_cons, ha]
    · have hb : b.published_at ≠ k := by
        intro hk
        exact (by assumption : ¬keyLE b a = true) (keyLE_of_eq (by rw [hk, ha]))
      simp only [List.filter_cons, hb, decide_eq_true_eq, if_neg, ih]
      simp [hb]

theorem filter_insertDesc_neg {a : Article} {l : List Article} {k : Option Int}
    (ha : a.published_at ≠ k) :
    (insertDesc a l).filter (fun x => decide (x.published_at = k))
      = l.filter (fun x => decide (x.published_at = k)) := by
  induction l with
  | nil => simp [insertDesc, List.filter, ha]
  | cons b bs ih =>
    unfold insertDesc
    split
    · simp [List.filter_cons, ha]
    · simp only [List.filter_cons, ih]

theorem sortArticles_stable (l : List Article) (k : Option Int) :
    (sortArticles l).filter (fun x => decide (x.published_at = k))
      = l.filter (fun x => decide (x.published_at = k)) := by
  induction l with
  | nil => rfl
  | cons x xs ih =>
    show (insertDesc x (sortArticles xs)).filter _ = _
    by_cases hx : x.published_at = k
    · rw [filter_insertDesc_pos hx, ih, List.filter_cons, if_pos (by simp [hx])]
    · rw [filter_insertDesc_neg hx, ih, List.filter_cons, if_neg (by simp [hx])]

/-- **C4**: the output of `sort_articles` is non-increasing in the
`published_at` key (missing timestamps compare as negative infinity), so
every timestamp-less article comes after every timestamped one, and for
each key value the articles carrying it appear in their input order
(stability). -/
theorem C4_sort_contract (l : List Article) :
    (sortArticles l).Pairwise (fun p q => keyLE q p = true)
    ∧ (sortArticles l).Pairwise
        (fun p q => p.published_at = none → q.published_at = none)
    ∧ ∀ k : Option Int,
        (sortArticles l).filter (fun x => decide (x.published_at = k))
          = l.filter (fun x => decide (x.published_at = k)) :=
  ⟨sortArticles_pairwise l,
   (sortArticles_pairwise l).imp (fun h hn => keyLE_none h hn),
   fun k => sortArticles_stable l k⟩

example :
    sortArticles
      [Article.mk "a" "l1" none none none none,
       Article.mk "b" "l2" none none (some 5) none,
       Article.mk "c" "l3" none none (some 7) none,
       Article.mk "d" "l4" none none none none]
    = [Article.mk "c" "l3" none none (some 7) none,
       Article.mk "b" "l2" none none (some 5) none,
       Article.mk "a" "l1" none none none none,
       Article.mk "d" "l4" none none none none] := by decide

/-! ## Delivery-state ledger and run orchestration (storage.py, main.py) -/

/-- The sent-URL ledger: a JSON object mapping URL strings to ISO
timestamp strings, modelled as an association list in insertion order
(Python dictionaries preserve insertion order; only key membership and
insertion are exercised by `run`). -/
abbrev SentMap : Type := List (String × String)

/-- Python `key in sent_map`. -/
def hasKey (m : SentMap) (k : String) : Bool := m.any (fun p => p.1 == k)

/-- Python `sent_map[key] = value`: overwrite an existing binding,
otherwise append a new one. -/
def setKey (m : SentMap) (k v : String) : SentMap :=
  if hasKey m k then m.map (fun p => if p.1 == k then (k, v) else p)
  else m ++ [(k, v)]

/-- `config.MAX_ARTICLES_PER_POST`. -/
def MAX_ARTICLES_PER_POST : Nat := 20

/-- The scheduled-mode selection loop of `run` (main.py): skip articles
with an empty link, skip articles whose raw link or normalized link is
already a ledger key, keep the rest in order. -/
def selectNew (sent : SentMap) (articles : List Article) : List Article :=
  articles.filter (fun a =>
    !(a.link == "") && !hasKey sent a.link && !hasKey sent (normalizedUrl a.link))

/-- `new_articles[:max_items]`: the slice is taken only when the list is
longer than the cap, which is exactly `take`. -/
def capList (l : List Article) (maxItems : Nat) : List Article := l.take maxItems

/-- The manual-mode selection of `run`: no ledger check, but Google-News
links are excluded unconditionally. -/
def manualSelect (articles : List Article) : List Article :=
  articles.filter (fun a =>
    !(a.link == "") && !strContains a.link "news.google.com")

/-- `filter_articles -> deduplicate_articles -> sort_articles`, the
deterministic middle of `run` (which passes no exclude-domain list). -/
def pipelineFiltered (medical it exclude : List String) (fetched : List Article) :
    List Article :=
  sortArticles (deduplicateArticles (filterArticles fetched medical it exclude []))

/-- The persistence loop after a successful delivery: each delivered
article's normalized URL is keyed to the run timestamp. -/
def persistSent (sent : SentMap) (delivered : List Article) (ts : String) : SentMap :=
  delivered.foldl (fun m a => setKey m (normalizedUrl a.link) ts) sent

/-- Observable outcome of one `run` invocation: process exit code, the
ledger as left on disk, and whether `save_sent_urls` was invoked. -/
structure RunResult where
  exitCode : Nat
  disk : SentMap
  saved : Bool
deriving DecidableEq, Repr

/-- `run` (main.py) with its effects made explicit: `fetched` is the
aggregated article list, `sent` the ledger read from disk, `deliverOk`
the outcome `post_message` reports (False on any non-2xx status, network
error, or missing webhook URL).  Scheduled mode filters through the
ledger and caps at `max_items`; manual mode skips the ledger, drops
Google News and caps at 5; a dry run prints and exits 0 before
delivering; a failed delivery exits 1 without saving; a successful
delivery persists the sent state (only when something was sent) and
exits 0. -/
def runModel (medical it exclude : List String) (fetched : List Article)
    (sent : SentMap) (deliverOk dryRun manual : Bool) (maxItemsOpt : Option Nat)
    (ts : String) : RunResult :=
  let maxItems := if manual then 5 else maxItemsOpt.getD MAX_ARTICLES_PER_POST
  let filtered := pipelineFiltered medical it exclude fetched
  let newArticles :=
    if manual then capList (manualSelect filtered) maxItems
    else capList (selectNew sent filtered) maxItems
  if dryRun then ⟨0, sent, false⟩
  else if !deliverOk then ⟨1, sent, false⟩
  else if newArticles.isEmpty then ⟨0, sent, false⟩
  else ⟨0, persistSent sent newArticles ts, true⟩

/-- `run` including source aggregation: the fetched list is the
concatenation of each RSS feed's articles and each extra scraping
source's articles, in configuration order.  The per-source fetch results
are oracle parameters (network behavior is out of scope); a failing or
unknown source simply contributes `[]`. -/
def runFull (rssFeeds extraSources : List String)
    (fetchFeed fetchExtra : String → List Article)
    (medical it exclude : List String) (sent : SentMap)
    (deliverOk dryRun manual : Bool) (maxItemsOpt : Option Nat) (ts : String) :
    RunResult :=
  runModel medical it exclude
    (rssFeeds.flatMap fetchFeed ++ extraSources.flatMap fetchExtra)
    sent deliverOk dryRun manual maxItemsOpt ts

theorem hasKey_setKey_mono {m : SentMap} {k2 : String} (k v : String)
    (h : hasKey m k2 = true) : hasKey (setKey m k v) k2 = true := by
  unfold setKey
  rcases List.any_eq_true.mp h with ⟨p, hp, hpk⟩
  split
  · refine List.any_eq_true.mpr ⟨if p.1 == k then (k, v) else p, List.mem_map.mpr ⟨p, hp, rfl⟩, ?_⟩
    split
    · rw [beq_iff_eq] at *
      rw [← (by assumption : p.1 = k), hpk]
    · exact hpk
  · exact List.any_eq_true.mpr ⟨p, List.mem_append.mpr (Or.inl hp), hpk⟩

theorem hasKey_setKey_self (m : SentMap) (k v : String) :
    hasKey (setKey m k v) k = true := by
  unfold setKey
  split
  · rcases List.any_eq_true.mp (by assumption : hasKey m k = true) with ⟨p, hp, hpk⟩
    refine List.any_eq_true.mpr
      ⟨if p.1 == k then (k, v) else p, List.mem_map.mpr ⟨p, hp, rfl⟩, ?_⟩
    rw [if_pos hpk]
    exact beq_self_eq_true k
  · exact List.any_eq_true.mpr
      ⟨(k, v), List.mem_append.mpr (Or.inr (List.mem_singleton.mpr rfl)), beq_self_eq_true k⟩

theorem hasKey_persistSent_mono {sent : SentMap} {k2 : String}
    (delivered : List Article) (ts : String) (h : hasKey sent k2 = true) :
    hasKey (persistSent sent delivered ts) k2 = true := by
  induction delivered generalizing sent with
  | nil => exact h
  | cons a rest ih =>
    exact ih (hasKey_setKey_mono _ _ h)

theorem hasKey_persistSent_of_mem {sent : SentMap} {delivered : List Article}
    {a : Article} (ts : String) (ha : a ∈ delivered) :
    hasKey (persistSent sent delivered ts) (normalizedUrl a.link) = true := by
  induction delivered generalizing sent with
  | nil => exact absurd ha (List.not_mem_nil _)
  | cons b rest ih =>
    rcases List.mem_cons.mp ha with rfl | ha'
    · exact hasKey_persistSent_mono rest ts (hasKey_setKey_self _ _ _)
    · exact ih ha'

/-- **C6**: when webhook delivery fails on a non-dry run, `run` exits
with code 1, `save_sent_urls` is never invoked, and the on-disk ledger is
exactly what it was before the run. -/
theorem C6_delivery_failure_preserves_ledger
    (medical it exclude : List String) (fetched : List Article) (sent : SentMap)
    (manual : Bool) (maxItemsOpt : Option Nat) (ts : String) :
    runModel medical it exclude fetched sent false false manual maxItemsOpt ts
      = ⟨1, sent, false⟩ := by
  simp [runModel]

/-- **C7** (as frozen) is false: with no sources configured (both source
lists empty) nothing is fetched, but the run does not abort — it runs the
whole pipeline on the empty list and exits 0 when delivery succeeds,
where the claim requires a non-zero exit. -/
theorem C7_counterexample :
    runFull [] [] (fun _ => []) (fun _ => []) [] [] [] []
        true false false none "ts"
      = ⟨0, [], false⟩ := by decide

/-- **C7** (amended): `run` never special-cases an empty source
configuration; for every source configuration (including no sources at
all) the exit code is determined solely by the dry-run flag and the
delivery outcome: 0 for a dry run, 0 when delivery succeeds, 1 when
delivery fails. -/
theorem C7_exit_codes (rssFeeds extraSources : List String)
    (fetchFeed fetchExtra : String → List Article)
    (medical it exclude : List String) (sent : SentMap)
    (deliverOk dryRun manual : Bool) (maxItemsOpt : Option Nat) (ts : String) :
    (runFull rssFeeds extraSources fetchFeed fetchExtra medical it exclude sent
        deliverOk dryRun manual maxItemsOpt ts).exitCode
      = if dryRun then 0 else if deliverOk then 0 else 1 := by
  cases dryRun <;> cases deliverOk <;>
    simp only [runFull, runModel, Bool.not_true, Bool.not_false, if_true, if_false,
      Bool.false_eq_true, ite_true, ite_false]
  all_goals repeat (first | rfl | split)

/-- **C5** (as frozen) is false when the cap truncates the selection:
with `max_items = 1` and two distinct surviving articles, run 1 delivers
and persists only the first; the second run still selects the other
article, so the second run's selection is not empty even though delivery
succeeded and the sent state was persisted. -/
theorem C5_counterexample :
    (runModel ["med"] ["it"] []
        [Article.mk "med it alpha quantum" "https://e.com/1" none none none none,
         Article.mk "med it beta zebra" "https://e.com/2" none none none none]
        [] true false false (some 1) "ts").saved = true
    ∧ selectNew
        (runModel ["med"] ["it"] []
          [Article.mk "med it alpha quantum" "https://e.com/1" none none none none,
           Article.mk "med it beta zebra" "https://e.com/2" none none none none]
          [] true false false (some 1) "ts").disk
        (pipelineFiltered ["med"] ["it"] []
          [Article.mk "med it alpha quantum" "https://e.com/1" none none none none,
           Article.mk "med it beta zebra" "https://e.com/2" none none none none])
      ≠ [] := by
  refine ⟨by decide, by decide⟩

/-- **C5** (amended): in scheduled mode, provided the ledger-filtered
selection fits under the max-items cap (so nothing is truncated), a run
with successful delivery and persisted sent-state leaves a ledger against
which a second run over the same fetched article set selects zero new
articles: every article surviving filter/dedup/sort is found in the
ledger by its raw or normalized link (or has an empty link). -/
theorem C5_second_run_selects_nothing
    (medical it exclude : List String) (fetched : List Article) (sent : SentMap)
    (maxItemsOpt : Option Nat) (ts : String)
    (hcap : (selectNew sent (pipelineFiltered medical it exclude fetched)).length
      ≤ maxItemsOpt.getD MAX_ARTICLES_PER_POST) :
    selectNew
      (runModel medical it exclude fetched sent true false false maxItemsOpt ts).disk
      (pipelineFiltered medical it exclude fetched) = [] := by
  have hcapEq : capList (selectNew sent (pipelineFiltered medical it exclude fetched))
      (maxItemsOpt.getD MAX_ARTICLES_PER_POST)
      = selectNew sent (pipelineFiltered medical it exclude fetched) :=
    List.take_of_length_le hcap
  have hdisk : (runModel medical it exclude fetched sent true false false
      maxItemsOpt ts).disk
      = if (selectNew sent (pipelineFiltered medical it exclude fetched)).isEmpty
        then sent
        else persistSent sent
          (selectNew sent (pipelineFiltered medical it exclude fetched)) ts := by
    simp only [runModel, Bool.not_true, if_false, ite_false, Bool.false_eq_true,
      hcapEq]
    split <;> rfl
  rw [hdisk]
  by_cases hsel : (selectNew sent (pipelineFiltered medical it exclude fetched)).isEmpty
      = true
  · rw [if_pos hsel]
    exact List.isEmpty_iff.mp hsel
  · rw [if_neg hsel]
    rw [selectNew, List.filter_eq_nil_iff]
    intro a ha
    by_cases hl : (a.link == "") = true
    · simp [hl]
    · by_cases h1 : hasKey sent a.link = true
      · simp [hasKey_persistSent_mono _ ts h1]
      · by_cases h2 : hasKey sent (normalizedUrl a.link) = true
        · simp [hasKey_persistSent_mono _ ts h2]
        · have ham : a ∈ selectNew sent (pipelineFiltered medical it exclude fetched) :=
            List.mem_filter.mpr ⟨ha, by simp [hl, h1, h2]⟩
          simp [hasKey_persistSent_of_mem ts ham]

/-- Witness for the amended C5 at a concrete run: one surviving article,
cap 20; after the persisted run the second selection is empty. -/
theorem C5_second_run_selects_nothing_witness :
    selectNew
      (runModel ["med"] ["it"] []
        [Article.mk "med it alpha" "https://e.com/1" none none none none]
        [] true false false none "ts").disk
      (pipelineFiltered ["med"] ["it"] []
        [Article.mk "med it alpha" "https://e.com/1" none none none none]) = [] :=
  C5_second_run_selects_nothing ["med"] ["it"] []
    [Article.mk "med it alpha" "https://e.com/1" none none none none]
    [] none "ts" (by decide)

example : normalizeTitle "Abc! d" = ['a', 'b', 'c', 'd'] := by decide

example : calculateTitleSimilarity "abc" "def" = 3/10 := by decide

example : calculateTitleSimilarity "Hello, world" "hello world" = 1 := by decide

example : calculateTitleSimilarity "!" "?" = 0 := by decide

end SlackNews
